import Mathlib

/-!
Verification of the mortgage-rate-monitor script (`src/check_rates.py`).

Shallow embedding conventions:
* JSON / Python numbers are modelled as rationals (`ℚ`); the script only
  compares, subtracts and orders them, and every concrete value in the claims
  is exactly representable.
* A Python dict field that may be absent, `None`, or a number is modelled by
  the three-valued type `JNum`; a field read with `.get(key)` (absent and
  `None` collapse to `None`) is modelled as `Option ℚ`.
* Raising a Python exception (`TypeError` from ordering `None` against a
  number, `KeyError` from indexing a missing key, `sys.exit`) is modelled with
  `Except String`.
* The persisted history file (absence, legacy dict shape, or list shape) is
  modelled by the `Store` inductive; `json.dump`/`json.load` of a snapshot
  list is the identity at this level of abstraction.
* HTML fragments produced by the renderer are abstracted to their directional
  content `ChangeMark`; the empty-string "no marker" output and the literal
  "no change" cell both map to `ChangeMark.noChange`.
-/

deriving instance DecidableEq for Except

namespace RateMonitor

/-- A Python/JSON numeric dict entry: the key may be absent, present with
value `None` (JSON `null`), or present with a number. -/
inductive JNum where
  | absent : JNum
  | null : JNum
  | num : ℚ → JNum
deriving DecidableEq, Repr

/-- One rate option dict as built by `fetch_rates` (src/check_rates.py
lines 59-66) or loaded back from the history file.  `rate`, `apr`,
`monthly_payment` and `price` are only ever read with `.get(key)` (no
default), so absent and `null` are indistinguishable and both are `none`.
`points` is read with defaults (`.get("points", 99)` / `.get("points", 0)`),
so all three states matter and it keeps the full `JNum`. -/
structure RateOption where
  product : String
  rate : Option ℚ
  apr : Option ℚ
  monthly_payment : Option ℚ
  points : JNum
  price : Option ℚ
deriving DecidableEq, Repr

/-- Python `d.get(key)`: absent and `None` both give `None`. -/
def pyGet : JNum → Option ℚ
  | JNum.absent => none
  | JNum.null => none
  | JNum.num q => some q

/-- Python `d.get(key, default)` with a numeric default: an absent key gives
the default, a key present with `None` gives `None`, a number gives itself. -/
def pyGetD (d : ℚ) : JNum → Option ℚ
  | JNum.absent => some d
  | JNum.null => none
  | JNum.num q => some q

/-- Python `a < b` on values that are each either a number or `None`:
ordering `None` against anything raises `TypeError`. -/
def pyLt (a b : Option ℚ) : Except String Bool :=
  match a, b with
  | some x, some y => Except.ok (decide (x < y))
  | _, _ => Except.error "TypeError"

/-- Lookup in an insertion-ordered association list (a Python dict whose keys
are product names). -/
def alookup (k : String) : List (String × RateOption) → Option RateOption
  | [] => none
  | kv :: t => if kv.1 = k then some kv.2 else alookup k t

/-- Overwrite the value of an existing key in place, keeping dict order. -/
def aupdate (k : String) (v : RateOption) :
    List (String × RateOption) → List (String × RateOption)
  | [] => []
  | kv :: t => if kv.1 = k then (k, v) :: t else kv :: aupdate k v t

/-- The keys of an association list, in dict order. -/
def keysOf (l : List (String × RateOption)) : List String :=
  l.map (fun kv => kv.1)

/-- One iteration of the loop in `best_by_product` (src/check_rates.py lines
98-101): `if p not in best or r.get("points", 99) < best[p].get("points", 99):
best[p] = r`.  A dict insert of a fresh key appends at the end; an overwrite
keeps the key's position.  The comparison raises `TypeError` when either side
is `None`. -/
def bbpStep (best : List (String × RateOption)) (r : RateOption) :
    Except String (List (String × RateOption)) :=
  match alookup r.product best with
  | none => Except.ok (best ++ [(r.product, r)])
  | some b =>
    match pyLt (pyGetD 99 r.points) (pyGetD 99 b.points) with
    | Except.error e => Except.error e
    | Except.ok lt =>
      Except.ok (if lt then aupdate r.product r best else best)

/-- The loop of `best_by_product`, threading the `best` dict. -/
def bbpGo (best : List (String × RateOption)) :
    List RateOption → Except String (List (String × RateOption))
  | [] => Except.ok best
  | r :: t =>
    match bbpStep best r with
    | Except.error e => Except.error e
    | Except.ok best2 => bbpGo best2 t

/-- `best_by_product(rates)` (src/check_rates.py lines 95-102): the
lowest-points option per product, missing points defaulting to the sentinel
`99`. -/
def best_by_product (rates : List RateOption) :
    Except String (List (String × RateOption)) :=
  bbpGo [] rates

/-- No option carries an explicit `None` points value (the precondition under
which the script's comparisons and sorts cannot raise `TypeError`;
`fetch_rates` itself establishes it only when the API never sends
`"discounts": null`). -/
def noNullPoints (rates : List RateOption) : Prop :=
  ∀ r ∈ rates, r.points ≠ JNum.null

/-- Python `kv.1 in dict` membership test on the `best` dicts. -/
def keyMem (p : String) (l : List (String × RateOption)) : Bool :=
  l.any (fun kv => kv.1 = p)

/-- `set(old_best.keys()) == set(new_best.keys())` (src/check_rates.py line
113). -/
def sameKeySet (a b : List (String × RateOption)) : Bool :=
  a.all (fun kv => keyMem kv.1 b) && b.all (fun kv => keyMem kv.1 a)

/-- The `for product in new_best:` loop of `rates_changed` (src/check_rates.py
lines 115-119): return `True` at the first product whose best `rate` or `apr`
differs (exact equality); indexing a product missing from `old_best` would
raise `KeyError`. -/
def changedLoop (ob : List (String × RateOption)) :
    List (String × RateOption) → Except String Bool
  | [] => Except.ok false
  | kv :: t =>
    match alookup kv.1 ob with
    | none => Except.error "KeyError"
    | some o =>
      if decide (o.rate ≠ kv.2.rate) || decide (o.apr ≠ kv.2.apr) then
        Except.ok true
      else changedLoop ob t

/-- `rates_changed(old_rates, new_rates)` (src/check_rates.py lines 105-120). -/
def rates_changed (old_rates new_rates : List RateOption) :
    Except String Bool :=
  if old_rates = [] then Except.ok true
  else
    match best_by_product old_rates with
    | Except.error e => Except.error e
    | Except.ok old_best =>
      match best_by_product new_rates with
      | Except.error e => Except.error e
      | Except.ok new_best =>
        if sameKeySet old_best new_best then changedLoop old_best new_best
        else Except.ok true

/-- Directional content of a rendered change cell.  The renderer's empty
string (no marker) and its literal "no change" cell are both `noChange`;
the red rising-arrow HTML is `up`; the green falling-arrow HTML is `down`. -/
inductive ChangeMark where
  | noChange : ChangeMark
  | up : ChangeMark
  | down : ChangeMark
deriving DecidableEq, Repr

/-- Python `(x or 0)` on an optional number: `None` and `0.0` are falsy and
give `0`, any other number gives itself. -/
def pyOrZero : Option ℚ → ℚ
  | none => 0
  | some q => if q = 0 then 0 else q

/-- The per-product summary classification of `build_email_html`
(src/check_rates.py lines 174-184, and identically 186-194 for APR): both
sides are coerced with `or 0`, the difference is compared against the display
epsilon `0.0005`, and the sign picks the arrow. -/
def summary_change_mark (old_val new_val : Option ℚ) : ChangeMark :=
  let d := pyOrZero new_val - pyOrZero old_val
  if |d| < 5 / 10000 then ChangeMark.noChange
  else if 0 < d then ChangeMark.up
  else ChangeMark.down

/-- `diff_arrow(old_val, new_val)` (src/check_rates.py lines 135-144),
abstracted to its directional content: the empty string is returned when
either side is `None` or the difference is below the epsilon `0.0005`. -/
def diff_arrow (old_val new_val : Option ℚ) : ChangeMark :=
  match old_val, new_val with
  | some o, some n =>
    if |n - o| < 5 / 10000 then ChangeMark.noChange
    else if 0 < n - o then ChangeMark.up
    else ChangeMark.down
  | _, _ => ChangeMark.noChange

/-- The Python `<` on the sort keys `(x["product"], x.get("points", 0))` used
by `build_email_html` line 229 and `format_rate_table` line 260: tuple
comparison decides on the product strings first and only compares the points
values on equal products, where a `None` points value raises `TypeError`. -/
def sortKeyLt (a b : RateOption) : Except String Bool :=
  if a.product < b.product then Except.ok true
  else if b.product < a.product then Except.ok false
  else pyLt (pyGetD 0 a.points) (pyGetD 0 b.points)

/-- One snapshot of the history: `{"checked_at": ..., "rates": [...]}`.
`checked_at` is optional because the legacy migration copies
`data.get("last_checked")`, which may be absent. -/
structure Snapshot where
  checked_at : Option String
  rates : List RateOption
deriving DecidableEq, Repr

/-- The persisted state of the history file: the file may be absent, hold the
legacy single-snapshot dict `{"rates": ..., "last_checked": ...}` (either
field possibly absent), or hold the current list-of-snapshots shape. -/
inductive Store where
  | absent : Store
  | legacy : Option String → Option (List RateOption) → Store
  | snapshots : List Snapshot → Store
deriving DecidableEq, Repr

/-- `load_history()` (src/check_rates.py lines 71-83): an absent file gives
`[]`; a dict with a truthy `rates` field migrates to a one-element history;
a dict with a falsy (absent, `null`, or empty) `rates` field gives `[]`; a
list is returned as-is. -/
def load_history : Store → List Snapshot
  | Store.absent => []
  | Store.legacy lc rs =>
    match rs with
    | some (r :: t) => [⟨lc, r :: t⟩]
    | _ => []
  | Store.snapshots h => h

/-- `save_history(history)` (src/check_rates.py lines 86-92): the whole
snapshot list is rewritten as the file's new content. -/
def save_history (history : List Snapshot) : Store :=
  Store.snapshots history

/-- The history-handling tail of `main()` (src/check_rates.py lines 297-320):
exit non-zero when the fetch produced no rates, load the history, take the
previous run's rates from its head, run the change detector (whose
`TypeError` would abort the run before anything is saved), then
unconditionally prepend the new snapshot and save. -/
def mainStep (store : Store) (now : String) (rates : List RateOption) :
    Except String Store :=
  if rates = [] then Except.error "no matching rates"
  else
    match rates_changed
        (match load_history store with | [] => [] | s :: _ => s.rates)
        rates with
    | Except.error e => Except.error e
    | Except.ok _ =>
      Except.ok (save_history (⟨some now, rates⟩ :: load_history store))

/-- One priced product entry of the API response, as read by `fetch_rates`
(src/check_rates.py lines 59-66): every field is an optional JSON number. -/
structure ApiProduct where
  rate : JNum
  apr : JNum
  monthlyPayments : JNum
  discounts : JNum
  price : JNum
deriving DecidableEq, Repr

/-- One product group of the API response: a name and its priced entries. -/
structure ProductType where
  name : String
  products : List ApiProduct
deriving DecidableEq, Repr

/-- `TRACKED_PRODUCTS` (src/config.py line 27). -/
def TRACKED_PRODUCTS : List String := ["30 Yr Fixed", "7 Year ARM"]

/-- Strip leading and trailing whitespace from a character list (the content
of Python `str.strip()`). -/
def trimChars (l : List Char) : List Char :=
  ((l.dropWhile Char.isWhitespace).reverse.dropWhile Char.isWhitespace).reverse

/-- Python `s.strip()`. -/
def pyStrip (s : String) : String := String.mk (trimChars s.data)

/-- Python `s.lower()` (the rate data is plain ASCII). -/
def pyLower (s : String) : String := String.mk (s.data.map Char.toLower)

/-- Python `needle in hay` substring containment. -/
def substrIn (needle hay : String) : Bool :=
  hay.data.tails.any (fun t => needle.data.isPrefixOf t)

/-- The filter of `fetch_rates` line 55: keep a (stripped) group name when it
contains, case-insensitively, some tracked substring. -/
def trackedMatch (name : String) : Bool :=
  TRACKED_PRODUCTS.any (fun tracked =>
    substrIn (pyLower tracked) (pyLower name))

/-- The dict built for one priced entry (src/check_rates.py lines 59-66):
`rate`, `apr`, `monthly_payment`, `price` are read with plain `.get`, while
`points` is `prod.get("discounts", 0)` — an absent key becomes the number
`0`, a `null` stays `null`. -/
def toRateOption (name : String) (prod : ApiProduct) : RateOption :=
  ⟨name, pyGet prod.rate, pyGet prod.apr, pyGet prod.monthlyPayments,
    match prod.discounts with
    | JNum.absent => JNum.num 0
    | j => j,
    pyGet prod.price⟩

/-- The response-processing part of `fetch_rates` (src/check_rates.py lines
50-68): strip each group name, keep tracked groups, and emit one RateOption
per priced entry. -/
def fetch_rates (productTypes : List ProductType) : List RateOption :=
  (productTypes.filter (fun pt => trackedMatch (pyStrip pt.name))).flatMap
    (fun pt => pt.products.map (toRateOption (pyStrip pt.name)))

/-- The value the script actually compares for an option's points:
`r.get("points", 99)` under the no-`null` precondition.  A `null` points
value (excluded by `noNullPoints`) is given the junk value `99`. -/
def pts99val (r : RateOption) : ℚ :=
  match r.points with
  | JNum.num q => q
  | _ => 99

/-- The options of one product, in source order. -/
def productOptions (p : String) (rates : List RateOption) : List RateOption :=
  rates.filter (fun r => decide (r.product = p))

/-- Minimum of a list of rationals, `none` on the empty list. -/
def listMin : List ℚ → Option ℚ
  | [] => none
  | q :: t =>
    match listMin t with
    | none => some q
    | some m => some (min q m)

/-- Modelled from the spec's words (for the refinement comparison of the
reduce operation): the first-encountered option of product `p` attaining the
minimum points-or-99 value, `none` when the product does not occur. -/
def bestSpec (p : String) (rates : List RateOption) : Option RateOption :=
  match listMin ((productOptions p rates).map pts99val) with
  | none => none
  | some m => (productOptions p rates).find? (fun r => decide (pts99val r = m))

/-- Left-biased strict minimum on optional candidates: the combining
operation by which the reduce loop accumulates one product's best option. -/
def combineBest : Option RateOption → Option RateOption → Option RateOption
  | none, o => o
  | some b, none => some b
  | some b, some s => if pts99val s < pts99val b then some s else some b

/-- Recursive form of first-encountered minimum selection over one
product's options. -/
def bestSpecFold (p : String) : List RateOption → Option RateOption
  | [] => none
  | r :: t =>
    if r.product = p then combineBest (some r) (bestSpecFold p t)
    else bestSpecFold p t

/-! Concrete inputs used in counterexamples and in witness instantiations. -/

/-- An option whose points key is absent (defaulted to the sentinel 99). -/
def missing_points_option : RateOption :=
  ⟨"30 Yr Fixed", some 6, none, none, JNum.absent, none⟩

/-- An option that states its points explicitly, with a value above the
sentinel. -/
def explicit100_points_option : RateOption :=
  ⟨"30 Yr Fixed", some 5, none, none, JNum.num 100, none⟩

/-- The old best option of the spec's concrete epsilon scenario:
rate 6.250. -/
def c3_old_option : RateOption :=
  ⟨"30 Yr Fixed", some (625 / 100), some (64 / 10), none, JNum.num 0, none⟩

/-- The new best option of the spec's concrete epsilon scenario:
rate 6.2503. -/
def c3_new_option : RateOption :=
  ⟨"30 Yr Fixed", some (62503 / 10000), some (64 / 10), none, JNum.num 0, none⟩

/-- An API entry with every numeric key absent. -/
def empty_api_product : ApiProduct :=
  ⟨JNum.absent, JNum.absent, JNum.absent, JNum.absent, JNum.absent⟩

/-- A tracked product group holding only the all-absent entry. -/
def empty_product_type : ProductType :=
  ⟨"30 Yr Fixed", [empty_api_product]⟩

/-- An option whose points value is an explicit JSON `null`. -/
def null_points_option : RateOption :=
  ⟨"30 Yr Fixed", none, none, none, JNum.null, none⟩

/-- An option with numeric points 0. -/
def zero_points_option : RateOption :=
  ⟨"30 Yr Fixed", none, none, none, JNum.num 0, none⟩

/-- A plain fully-populated option used to instantiate witnesses. -/
def sample_option : RateOption :=
  ⟨"30 Yr Fixed", some 6, some 7, some 4000, JNum.num 1, some 99⟩

/-- A second sample with a different rate on the same product. -/
def sample_option_changed : RateOption :=
  ⟨"30 Yr Fixed", some 5, some 7, some 3990, JNum.num 1, some 99⟩

/-- A sample snapshot used to instantiate witnesses. -/
def sample_snapshot : Snapshot :=
  ⟨some "2026-01-01T00:00:00+00:00", [sample_option]⟩

/-! Helper lemmas about the association-list model of Python dicts. -/

theorem alookup_append (p : String) (l1 l2 : List (String × RateOption)) :
    alookup p (l1 ++ l2) =
      match alookup p l1 with
      | some v => some v
      | none => alookup p l2 := by
  induction l1 with
  | nil => simp [alookup]
  | cons kv t ih =>
    by_cases h : kv.1 = p <;> simp [alookup, h, ih]

theorem alookup_aupdate (p k : String) (v : RateOption)
    (l : List (String × RateOption)) :
    alookup p (aupdate k v l) =
      if k = p ∧ (alookup k l).isSome then some v else alookup p l := by
  induction l with
  | nil => simp [alookup, aupdate]
  | cons kv t ih =>
    by_cases hk : kv.1 = k
    · by_cases hp : k = p
      · simp [aupdate, alookup, hk, hp]
      · have hkp : ¬ kv.1 = p := by rw [hk]; exact hp
        simp [aupdate, alookup, hk, hp, hkp]
    · by_cases hp : kv.1 = p
      · have h1 : ¬ p = k := fun he => hk (hp.trans he)
        have h2 : ¬ k = p := fun he => h1 he.symm
        simp [aupdate, alookup, hk, hp, h1, h2]
      · simp [aupdate, alookup, hk, hp, ih]

theorem mem_aupdate (kv : String × RateOption) (k : String) (v : RateOption)
    (l : List (String × RateOption)) (h : kv ∈ aupdate k v l) :
    kv = (k, v) ∨ kv ∈ l := by
  induction l with
  | nil => simp [aupdate] at h
  | cons kv2 t ih =>
    by_cases hk : kv2.1 = k
    · simp [aupdate, hk] at h
      rcases h with h | h
      · exact Or.inl h
      · exact Or.inr (List.mem_cons_of_mem _ h)
    · simp [aupdate, hk] at h
      rcases h with h | h
      · exact Or.inr (by simp [h])
      · rcases ih h with h2 | h2
        · exact Or.inl h2
        · exact Or.inr (List.mem_cons_of_mem _ h2)

theorem alookup_mem (p : String) (b : RateOption)
    (l : List (String × RateOption)) (h : alookup p l = some b) : (p, b) ∈ l := by
  induction l with
  | nil => simp [alookup] at h
  | cons kv t ih =>
    obtain ⟨k1, v1⟩ := kv
    by_cases hk : k1 = p
    · simp [alookup, hk] at h
      rw [← hk, ← h]
      exact List.mem_cons_self _ _
    · simp [alookup, hk] at h
      exact List.mem_cons_of_mem _ (ih h)

/-- Distinct keys, expressed structurally: each key is absent from its tail. -/
def nodupKeys : List (String × RateOption) → Prop
  | [] => True
  | kv :: t => alookup kv.1 t = none ∧ nodupKeys t

theorem alookup_of_mem_nodup (p : String) (b : RateOption)
    (l : List (String × RateOption)) (hn : nodupKeys l)
    (h : (p, b) ∈ l) : alookup p l = some b := by
  induction l with
  | nil => simp at h
  | cons kv t ih =>
    rcases List.mem_cons.mp h with h1 | h1
    · simp [alookup, ← h1]
    · have hs : alookup p t = some b := ih hn.2 h1
      by_cases hk : kv.1 = p
      · have hn1 : alookup kv.1 t = none := hn.1
        rw [hk, hs] at hn1
        exact absurd hn1 (by simp)
      · simp [alookup, hk, hs]

theorem nodupKeys_aupdate (k : String) (v : RateOption)
    (l : List (String × RateOption)) (hn : nodupKeys l) :
    nodupKeys (aupdate k v l) := by
  induction l with
  | nil => exact trivial
  | cons kv t ih =>
    by_cases hk : kv.1 = k
    · simp only [aupdate, hk, if_pos rfl]
      exact ⟨by rw [← hk]; exact hn.1, hn.2⟩
    · simp only [aupdate, hk, if_neg hk]
      refine ⟨?_, ih hn.2⟩
      rw [alookup_aupdate]
      have : ¬ k = kv.1 := fun he => hk he.symm
      simp [this, hn.1]

theorem nodupKeys_append (k : String) (v : RateOption)
    (l : List (String × RateOption)) (hn : nodupKeys l)
    (hk : alookup k l = none) : nodupKeys (l ++ [(k, v)]) := by
  induction l with
  | nil => exact ⟨rfl, trivial⟩
  | cons kv t ih =>
    simp only [alookup] at hk
    by_cases he : kv.1 = k
    · rw [if_pos he] at hk
      exact absurd hk (by simp)
    · rw [if_neg he] at hk
      refine ⟨?_, ih hn.2 hk⟩
      show alookup kv.1 (t ++ [(k, v)]) = none
      rw [alookup_append, hn.1]
      have he2 : ¬ k = kv.1 := fun h => he h.symm
      simp [alookup, he2]

theorem keyMem_iff_isSome (p : String) (l : List (String × RateOption)) :
    keyMem p l = true ↔ (alookup p l).isSome := by
  induction l with
  | nil => simp [keyMem, alookup]
  | cons kv t ih =>
    by_cases hk : kv.1 = p
    · simp [keyMem, alookup, List.any_cons, hk]
    · simp only [keyMem, List.any_cons, alookup, if_neg hk, hk, decide_False,
        Bool.false_or]
      simpa [keyMem] using ih

/-! Helper lemmas about `combineBest`. -/

theorem combineBest_none (o : Option RateOption) : combineBest none o = o := by
  cases o <;> rfl

theorem combineBest_assoc (a b c : Option RateOption) :
    combineBest a (combineBest b c) = combineBest (combineBest a b) c := by
  cases a with
  | none => simp [combineBest_none]
  | some x =>
    cases b with
    | none => cases c <;> rfl
    | some y =>
      cases c with
      | none => by_cases h : pts99val y < pts99val x <;> simp [combineBest, h]
      | some z =>
        by_cases h1 : pts99val z < pts99val y
        · by_cases h2 : pts99val y < pts99val x
          · simp [combineBest, h1, h2, lt_trans h1 h2]
          · simp [combineBest, h1, h2]
        · by_cases h2 : pts99val y < pts99val x
          · simp [combineBest, h1, h2]
          · have h3 : ¬ pts99val z < pts99val x :=
              fun h => h1 (lt_of_lt_of_le h (le_of_not_lt h2))
            simp [combineBest, h1, h2, h3]

theorem pyGetD99_eq (r : RateOption) (h : r.points ≠ JNum.null) :
    pyGetD 99 r.points = some (pts99val r) := by
  cases hp : r.points with
  | absent => simp [pyGetD, pts99val, hp]
  | null => exact absurd hp h
  | num q => simp [pyGetD, pts99val, hp]

theorem bbpGo_spec (rates : List RateOption) :
    ∀ acc, noNullPoints rates → (∀ kv ∈ acc, kv.2.points ≠ JNum.null) →
      nodupKeys acc →
      ∃ l, bbpGo acc rates = Except.ok l ∧ nodupKeys l ∧
        (∀ kv ∈ l, kv.2.points ≠ JNum.null) ∧
        ∀ p, alookup p l = combineBest (alookup p acc) (bestSpecFold p rates) := by
  induction rates with
  | nil =>
    intro acc _ hval hnd
    refine ⟨acc, rfl, hnd, hval, fun p => ?_⟩
    cases h : alookup p acc <;> simp [bestSpecFold, combineBest, h]
  | cons r t ih =>
    intro acc hnn hval hnd
    have hr : r.points ≠ JNum.null := hnn r (List.mem_cons_self _ _)
    have hnt : noNullPoints t := fun x hx => hnn x (List.mem_cons_of_mem _ hx)
    cases h0 : alookup r.product acc with
    | none =>
      have hval2 : ∀ kv ∈ acc ++ [(r.product, r)], kv.2.points ≠ JNum.null := by
        intro kv hkv
        rcases List.mem_append.mp hkv with h | h
        · exact hval kv h
        · simp at h
          rw [h]
          exact hr
      obtain ⟨l, hl, hlnd, hlval, hspec⟩ :=
        ih (acc ++ [(r.product, r)]) hnt hval2 (nodupKeys_append _ _ _ hnd h0)
      refine ⟨l, ?_, hlnd, hlval, fun p => ?_⟩
      · simp [bbpGo, bbpStep, h0, hl]
      · rw [hspec p]
        by_cases hp : r.product = p
        · have hnone : alookup p acc = none := by rw [← hp]; exact h0
          have ha : alookup p (acc ++ [(r.product, r)]) = some r := by
            rw [alookup_append, hnone]
            simp [alookup, hp]
          rw [ha, hnone, combineBest_none]
          simp [bestSpecFold, hp]
        · have ha : alookup p (acc ++ [(r.product, r)]) = alookup p acc := by
            rw [alookup_append]
            cases hc : alookup p acc <;> simp [alookup, hp]
          rw [ha]
          simp [bestSpecFold, hp]
    | some b =>
      have hb : b.points ≠ JNum.null :=
        hval (r.product, b) (alookup_mem _ _ _ h0)
      have hstep : bbpStep acc r =
          Except.ok (if pts99val r < pts99val b then aupdate r.product r acc
            else acc) := by
        simp [bbpStep, h0, pyLt, pyGetD99_eq r hr, pyGetD99_eq b hb]
      by_cases hlt : pts99val r < pts99val b
      · have hval2 : ∀ kv ∈ aupdate r.product r acc, kv.2.points ≠ JNum.null := by
          intro kv hkv
          rcases mem_aupdate kv _ _ _ hkv with h | h
          · rw [h]; exact hr
          · exact hval kv h
        obtain ⟨l, hl, hlnd, hlval, hspec⟩ :=
          ih (aupdate r.product r acc) hnt hval2 (nodupKeys_aupdate _ _ _ hnd)
        refine ⟨l, ?_, hlnd, hlval, fun p => ?_⟩
        · simp [bbpGo, hstep, hlt, hl]
        · rw [hspec p, alookup_aupdate]
          by_cases hp : r.product = p
          · have hsome : alookup p acc = some b := by rw [← hp]; exact h0
            rw [← hp] at *
            simp [h0, hsome, bestSpecFold, combineBest_assoc]
            have : combineBest (some b) (some r) = some r := by
              simp [combineBest, hlt]
            rw [this]
          · simp [hp, bestSpecFold]
      · obtain ⟨l, hl, hlnd, hlval, hspec⟩ := ih acc hnt hval hnd
        refine ⟨l, ?_, hlnd, hlval, fun p => ?_⟩
        · simp [bbpGo, hstep, hlt, hl]
        · rw [hspec p]
          by_cases hp : r.product = p
          · have hsome : alookup p acc = some b := by rw [← hp]; exact h0
            rw [hsome]
            simp [bestSpecFold, hp]
            have : combineBest (some b) (some r) = some b := by
              simp [combineBest, hlt]
            rw [combineBest_assoc, this]
          · simp [bestSpecFold, hp]

theorem best_by_product_fold (rates : List RateOption) (h : noNullPoints rates) :
    ∃ l, best_by_product rates = Except.ok l ∧ nodupKeys l ∧
      (∀ kv ∈ l, kv.2.points ≠ JNum.null) ∧
      ∀ p, alookup p l = bestSpecFold p rates := by
  obtain ⟨l, hl, hnd, hval, hspec⟩ := bbpGo_spec rates [] h (by simp) trivial
  exact ⟨l, hl, hnd, hval, fun p => by
    have := hspec p
    rwa [show alookup p ([] : List (String × RateOption)) = none from rfl,
      combineBest_none] at this⟩

theorem listMin_eq_none_iff (l : List ℚ) : listMin l = none ↔ l = [] := by
  cases l with
  | nil => simp [listMin]
  | cons q t =>
    simp [listMin]
    cases listMin t <;> simp

theorem listMin_mem (l : List ℚ) (m : ℚ) (h : listMin l = some m) : m ∈ l := by
  induction l generalizing m with
  | nil => simp [listMin] at h
  | cons q t ih =>
    cases ht : listMin t with
    | none =>
      simp [listMin, ht] at h
      simp [h]
    | some m2 =>
      simp [listMin, ht] at h
      rcases min_cases q m2 with ⟨he, _⟩ | ⟨he, _⟩
      · rw [← h, he]
        exact List.mem_cons_self _ _
      · rw [← h, he]
        exact List.mem_cons_of_mem _ (ih m2 ht)

theorem listMin_le (l : List ℚ) (m : ℚ) (h : listMin l = some m) :
    ∀ x ∈ l, m ≤ x := by
  induction l generalizing m with
  | nil => simp
  | cons q t ih =>
    intro x hx
    cases ht : listMin t with
    | none =>
      have : t = [] := (listMin_eq_none_iff t).mp ht
      subst this
      simp [listMin] at h
      simp at hx
      rw [hx]
      exact le_of_eq h.symm
    | some m2 =>
      simp [listMin, ht] at h
      rcases List.mem_cons.mp hx with h1 | h1
      · rw [← h, h1]
        exact min_le_left _ _
      · exact le_trans (h ▸ min_le_right q m2) (ih m2 ht x h1)

theorem bestSpecFold_eq_bestSpec (p : String) (rates : List RateOption) :
    bestSpecFold p rates = bestSpec p rates := by
  induction rates with
  | nil => simp [bestSpecFold, bestSpec, productOptions, listMin]
  | cons r t ih =>
    by_cases hp : r.product = p
    · have hpo : productOptions p (r :: t) = r :: productOptions p t := by
        simp [productOptions, List.filter_cons, hp]
      rw [bestSpecFold, if_pos hp, ih]
      cases hm : listMin ((productOptions p t).map pts99val) with
      | none =>
        have hnil : productOptions p t = [] := by
          have := (listMin_eq_none_iff _).mp hm
          exact List.map_eq_nil_iff.mp this
        simp [bestSpec, hpo, hnil, listMin, combineBest]
      | some m =>
        have hmem := listMin_mem _ _ hm
        obtain ⟨s, hs, hsm⟩ := List.exists_of_mem_map hmem
        have hfind : ((productOptions p t).find?
            (fun x => decide (pts99val x = m))).isSome := by
          rw [List.find?_isSome]
          exact ⟨s, hs, by simp [hsm]⟩
        obtain ⟨s0, hs0⟩ := Option.isSome_iff_exists.mp hfind
        have hs0m : pts99val s0 = m := by
          have := List.find?_some hs0
          simpa using this
        have hlm : listMin ((productOptions p (r :: t)).map pts99val) =
            some (min (pts99val r) m) := by
          rw [hpo]
          simp [listMin, hm]
        by_cases hle : pts99val r ≤ m
        · have hminr : min (pts99val r) m = pts99val r := min_eq_left hle
          simp only [bestSpec, hlm, hm, hminr, hs0]
          rw [hpo, List.find?_cons_of_pos _ (by simp)]
          have hns : ¬ pts99val s0 < pts99val r := by
            rw [hs0m]
            exact not_lt.mpr hle
          simp [combineBest, hns]
        · have hminr : min (pts99val r) m = m :=
            min_eq_right (le_of_not_le hle)
          simp only [bestSpec, hlm, hm, hminr, hs0]
          rw [hpo, List.find?_cons_of_neg _ (by simp; exact fun h => hle (le_of_eq h))]
          rw [hs0]
          have hlt2 : pts99val s0 < pts99val r := by
            rw [hs0m]
            exact lt_of_not_le hle
          simp [combineBest, hlt2]
    · have hpo : productOptions p (r :: t) = productOptions p t := by
        simp [productOptions, List.filter_cons, hp]
      rw [bestSpecFold, if_neg hp, ih, bestSpec, bestSpec, hpo]

/-- The summary form of the reduce correctness: under the no-`null`
precondition, `best_by_product` succeeds and its dict sends each product to
the first-encountered option attaining the minimal points-or-99 value. -/
theorem best_by_product_eq_bestSpec (rates : List RateOption)
    (h : noNullPoints rates) :
    ∃ l, best_by_product rates = Except.ok l ∧
      ∀ p, alookup p l = bestSpec p rates := by
  obtain ⟨l, hl, _, _, hspec⟩ := best_by_product_fold rates h
  exact ⟨l, hl, fun p => (hspec p).trans (bestSpecFold_eq_bestSpec p rates)⟩

theorem keyMem_of_mem (kv : String × RateOption)
    (l : List (String × RateOption)) (h : kv ∈ l) : keyMem kv.1 l = true := by
  rw [keyMem, List.any_eq_true]
  exact ⟨kv, h, by simp⟩

theorem sameKeySet_refl (l : List (String × RateOption)) :
    sameKeySet l l = true := by
  rw [sameKeySet, Bool.and_eq_true]
  constructor <;>
    exact List.all_eq_true.mpr (fun kv h => keyMem_of_mem kv l h)

theorem sameKeySet_lookup (a b : List (String × RateOption))
    (h : sameKeySet a b = true) (kv : String × RateOption) (hkv : kv ∈ b) :
    (alookup kv.1 a).isSome := by
  rw [sameKeySet, Bool.and_eq_true] at h
  have := List.all_eq_true.mp h.2 kv hkv
  exact (keyMem_iff_isSome _ _).mp this

theorem changedLoop_iff (ob : List (String × RateOption)) :
    ∀ nb, (∀ kv ∈ nb, (alookup kv.1 ob).isSome) →
      (changedLoop ob nb = Except.ok false ↔
        ∀ kv ∈ nb, ∀ o, alookup kv.1 ob = some o →
          o.rate = kv.2.rate ∧ o.apr = kv.2.apr) ∧
      (changedLoop ob nb = Except.ok true ↔
        ∃ kv ∈ nb, ∃ o, alookup kv.1 ob = some o ∧
          (o.rate ≠ kv.2.rate ∨ o.apr ≠ kv.2.apr)) := by
  intro nb
  induction nb with
  | nil =>
    intro _
    simp [changedLoop]
  | cons kv t ih =>
    intro hlk
    obtain ⟨o, ho⟩ :=
      Option.isSome_iff_exists.mp (hlk kv (List.mem_cons_self _ _))
    have hrec := ih (fun x hx => hlk x (List.mem_cons_of_mem _ hx))
    by_cases hc : o.rate ≠ kv.2.rate ∨ o.apr ≠ kv.2.apr
    · have hb : (decide (o.rate ≠ kv.2.rate) || decide (o.apr ≠ kv.2.apr)) = true := by
        rcases hc with h | h <;> simp [h]
      have hcl : changedLoop ob (kv :: t) = Except.ok true := by
        rw [changedLoop, ho]
        have hred : ∀ X Y : Except String Bool,
            (if (decide (o.rate ≠ kv.2.rate) || decide (o.apr ≠ kv.2.apr)) = true
              then X else Y) = X := by
          intro X Y
          rw [hb]
          simp
        exact hred _ _
      constructor
      · rw [hcl]
        refine iff_of_false (by simp) ?_
        intro hall
        have := hall kv (List.mem_cons_self _ _) o ho
        rcases hc with h | h
        · exact h this.1
        · exact h this.2
      · rw [hcl]
        exact iff_of_true rfl ⟨kv, List.mem_cons_self _ _, o, ho, hc⟩
    · rw [not_or, not_not, not_not] at hc
      have hb : (decide (o.rate ≠ kv.2.rate) || decide (o.apr ≠ kv.2.apr)) = false := by
        simp [hc.1, hc.2]
      have hcl : changedLoop ob (kv :: t) = changedLoop ob t := by
        rw [changedLoop, ho]
        have hred : ∀ X Y : Except String Bool,
            (if (decide (o.rate ≠ kv.2.rate) || decide (o.apr ≠ kv.2.apr)) = true
              then X else Y) = Y := by
          intro X Y
          rw [hb]
          simp
        exact hred _ _
      constructor
      · rw [hcl, hrec.1]
        constructor
        · intro hall x hx o2 ho2
          rcases List.mem_cons.mp hx with h1 | h1
          · subst h1
            rw [ho] at ho2
            have ho22 : o = o2 := Option.some.inj ho2
            rw [← ho22]
            exact hc
          · exact hall x h1 o2 ho2
        · intro hall x hx o2 ho2
          exact hall x (List.mem_cons_of_mem _ hx) o2 ho2
      · rw [hcl, hrec.2]
        constructor
        · intro hex
          obtain ⟨x, hx, o2, ho2, hd⟩ := hex
          exact ⟨x, List.mem_cons_of_mem _ hx, o2, ho2, hd⟩
        · intro hex
          obtain ⟨x, hx, o2, ho2, hd⟩ := hex
          rcases List.mem_cons.mp hx with h1 | h1
          · subst h1
            rw [ho] at ho2
            have ho22 : o = o2 := Option.some.inj ho2
            rw [← ho22] at hd
            rcases hd with h | h
            · exact absurd hc.1 h
            · exact absurd hc.2 h
          · exact ⟨x, h1, o2, ho2, hd⟩

theorem bestSpec_spec (p : String) (rates : List RateOption) (b : RateOption)
    (h : bestSpec p rates = some b) :
    b ∈ rates ∧ b.product = p ∧
      ∀ r ∈ rates, r.product = p → pts99val b ≤ pts99val r := by
  rw [bestSpec] at h
  cases hm : listMin ((productOptions p rates).map pts99val) with
  | none => rw [hm] at h; exact absurd h (by simp)
  | some m =>
    rw [hm] at h
    have hmem := List.mem_of_find?_eq_some h
    have hbm : pts99val b = m := by
      have := List.find?_some h
      simpa using this
    rw [productOptions, List.mem_filter] at hmem
    refine ⟨hmem.1, by simpa using hmem.2, ?_⟩
    intro r hr hrp
    have hrmem : r ∈ productOptions p rates := by
      rw [productOptions, List.mem_filter]
      exact ⟨hr, by simpa using hrp⟩
    have : pts99val r ∈ (productOptions p rates).map pts99val :=
      List.mem_map_of_mem _ hrmem
    rw [hbm]
    exact listMin_le _ _ hm _ this

theorem summary_change_mark_eq (o n : Option ℚ) :
    summary_change_mark o n =
      if |pyOrZero n - pyOrZero o| < 5 / 10000 then ChangeMark.noChange
      else if 0 < pyOrZero n - pyOrZero o then ChangeMark.up
      else ChangeMark.down := rfl

/-- C1, counterexample: the claim says an option with missing points is never
preferred over an option of the same product that states its points
explicitly (missing treated as +infinity).  On
`[missing_points_option, explicit100_points_option]` the code's sentinel 99
makes the missing-points option win against the explicit points value 100:
the reduce maps "30 Yr Fixed" to the missing-points option, whose points-or-99
value 99 differs from 100, the minimum over explicitly stated points. -/
theorem c1_missing_preferred_counterexample :
    best_by_product [missing_points_option, explicit100_points_option] =
      Except.ok [("30 Yr Fixed", missing_points_option)] ∧
    missing_points_option.points = JNum.absent ∧
    explicit100_points_option.points = JNum.num 100 ∧
    explicit100_points_option.product = "30 Yr Fixed" ∧
    alookup "30 Yr Fixed" [("30 Yr Fixed", missing_points_option)] =
      some missing_points_option ∧
    pts99val missing_points_option = 99 ∧
    pts99val explicit100_points_option = 100 := by
  decide

/-- C1 (amended): for every rate sequence without explicit-`null` points,
`best_by_product` succeeds and maps each product name to the option with
minimum points for that product, where an option whose points value is
missing is treated as the sentinel value 99 (not +infinity), and ties on that
value are broken in favour of the first-encountered option in the source
sequence: the returned dict agrees with `bestSpec` everywhere, and every
returned option attains the minimum of points-or-99 over its product's
options. -/
theorem c1_best_by_product_min (rates : List RateOption)
    (h : noNullPoints rates) :
    ∃ l, best_by_product rates = Except.ok l ∧
      ∀ p, alookup p l = bestSpec p rates ∧
        ∀ b, alookup p l = some b →
          b ∈ rates ∧ b.product = p ∧
          ∀ r ∈ rates, r.product = p → pts99val b ≤ pts99val r := by
  obtain ⟨l, hl, hspec⟩ := best_by_product_eq_bestSpec rates h
  refine ⟨l, hl, fun p => ⟨hspec p, fun b hb => ?_⟩⟩
  exact bestSpec_spec p rates b ((hspec p).symm.trans hb)

/-- C1 witness: the amended theorem applied to a concrete one-option list. -/
theorem c1_best_by_product_min_witness :
    noNullPoints [sample_option] ∧
    (∃ l, best_by_product [sample_option] = Except.ok l ∧
      ∀ p, alookup p l = bestSpec p [sample_option] ∧
        ∀ b, alookup p l = some b →
          b ∈ [sample_option] ∧ b.product = p ∧
          ∀ r ∈ [sample_option], r.product = p →
            pts99val b ≤ pts99val r) :=
  ⟨fun r hr => by fin_cases hr; decide,
   c1_best_by_product_min [sample_option] (fun r hr => by fin_cases hr; decide)⟩

/-- C3: on the spec's concrete pair (old best rate 6.250, new best rate
6.2503) the detector reports a change under exact equality, while the
renderer's summary classification with display epsilon 0.0005 yields
"no change" for the same pair of best rates. -/
theorem c3_detector_vs_renderer :
    rates_changed [c3_old_option] [c3_new_option] = Except.ok true ∧
    best_by_product [c3_old_option] =
      Except.ok [("30 Yr Fixed", c3_old_option)] ∧
    best_by_product [c3_new_option] =
      Except.ok [("30 Yr Fixed", c3_new_option)] ∧
    c3_old_option.rate = some (625 / 100) ∧
    c3_new_option.rate = some (62503 / 10000) ∧
    summary_change_mark c3_old_option.rate c3_new_option.rate =
      ChangeMark.noChange := by
  have hrate : c3_old_option.rate ≠ c3_new_option.rate := by
    intro h
    have h2 : (625 : ℚ) / 100 = 62503 / 10000 := Option.some.inj h
    norm_num at h2
  refine ⟨?_, rfl, rfl, rfl, rfl, ?_⟩
  · have hcond : (decide (c3_old_option.rate ≠ c3_new_option.rate) ||
        decide (c3_old_option.apr ≠ c3_new_option.apr)) = true := by
      rw [decide_eq_true hrate]
      exact Bool.true_or _
    show (if (decide (c3_old_option.rate ≠ c3_new_option.rate) ||
        decide (c3_old_option.apr ≠ c3_new_option.apr)) = true
      then Except.ok true else Except.ok false) = Except.ok true
    rw [hcond]
    simp
  · have hdiff : pyOrZero c3_new_option.rate - pyOrZero c3_old_option.rate
        = 3 / 10000 := by
      show (if (62503 : ℚ) / 10000 = 0 then (0 : ℚ) else 62503 / 10000) -
        (if (625 : ℚ) / 100 = 0 then (0 : ℚ) else 625 / 100) = 3 / 10000
      rw [if_neg (by norm_num : ¬((62503 : ℚ) / 10000 = 0)),
        if_neg (by norm_num : ¬((625 : ℚ) / 100 = 0))]
      norm_num
    rw [summary_change_mark_eq, hdiff]
    rw [if_pos (show |(3 : ℚ) / 10000| < 5 / 10000 by
      rw [abs_of_pos (by norm_num : (0 : ℚ) < 3 / 10000)]
      norm_num)]

/-- C4: load after save is the identity on histories, and a legacy-shape
store round-trips through load then save to the migrated single-entry list
form, which is not the original legacy store value. -/
theorem c4_load_save_roundtrip :
    (∀ H : List Snapshot, load_history (save_history H) = H) ∧
    (∀ lc (l : List RateOption), l ≠ [] →
      save_history (load_history (Store.legacy lc (some l))) =
        Store.snapshots [⟨lc, l⟩] ∧
      load_history (save_history (load_history (Store.legacy lc (some l)))) =
        load_history (Store.legacy lc (some l)) ∧
      save_history (load_history (Store.legacy lc (some l))) ≠
        Store.legacy lc (some l)) := by
  constructor
  · intro H
    rfl
  · intro lc l hl
    cases l with
    | nil => exact absurd rfl hl
    | cons r t =>
      refine ⟨rfl, rfl, ?_⟩
      intro hcontra
      exact Store.noConfusion hcontra

/-- C4 witness: the round-trip facts at a concrete history and a concrete
legacy store. -/
theorem c4_load_save_roundtrip_witness :
    load_history (save_history [sample_snapshot]) = [sample_snapshot] ∧
    ([sample_option] ≠ ([] : List RateOption) ∧
      save_history (load_history (Store.legacy (some "t") (some [sample_option]))) =
        Store.snapshots [⟨some "t", [sample_option]⟩] ∧
      load_history (save_history (load_history
          (Store.legacy (some "t") (some [sample_option])))) =
        load_history (Store.legacy (some "t") (some [sample_option])) ∧
      save_history (load_history (Store.legacy (some "t") (some [sample_option]))) ≠
        Store.legacy (some "t") (some [sample_option])) :=
  ⟨c4_load_save_roundtrip.1 [sample_snapshot],
   by decide,
   c4_load_save_roundtrip.2 (some "t") [sample_option] (by decide)⟩

/-- C5: `load_history` returns `[]` for an absent file, migrates a legacy
record with non-empty rates to the one-element history carrying the legacy
`last_checked` timestamp and rates, returns `[]` when the legacy rates field
is absent (or `null`) or empty, and returns any persisted snapshot list
as-is. -/
theorem c5_load_history_cases :
    load_history Store.absent = [] ∧
    (∀ lc (l : List RateOption), l ≠ [] →
      load_history (Store.legacy lc (some l)) = [⟨lc, l⟩]) ∧
    (∀ lc, load_history (Store.legacy lc none) = [] ∧
      load_history (Store.legacy lc (some [])) = []) ∧
    (∀ h, load_history (Store.snapshots h) = h) := by
  refine ⟨rfl, ?_, fun lc => ⟨rfl, rfl⟩, fun h => rfl⟩
  intro lc l hl
  cases l with
  | nil => exact absurd rfl hl
  | cons r t => rfl

/-- C5 witness: the legacy-migration case at a concrete legacy record. -/
theorem c5_load_history_cases_witness :
    [sample_option] ≠ ([] : List RateOption) ∧
    load_history (Store.legacy (some "t") (some [sample_option])) =
      [⟨some "t", [sample_option]⟩] :=
  ⟨by decide, c5_load_history_cases.2.1 (some "t") [sample_option] (by decide)⟩

/-- C2: for non-empty old rates (without explicit-`null` points on either
side), `rates_changed` returns true when the best-by-product key sets differ;
when the key sets match it returns false exactly when every product's best
rate and APR are exactly unchanged (and true exactly when some product's best
rate or APR differs) — the condition never inspects `price`,
`monthly_payment` or `points`, so ties that differ only in those fields
still compare as unchanged. -/
theorem c2_rates_changed_spec (old_rates new_rates : List RateOption)
    (h0 : old_rates ≠ []) (h1 : noNullPoints old_rates)
    (h2 : noNullPoints new_rates) :
    ∃ ob nb, best_by_product old_rates = Except.ok ob ∧
      best_by_product new_rates = Except.ok nb ∧
      (sameKeySet ob nb = false →
        rates_changed old_rates new_rates = Except.ok true) ∧
      (sameKeySet ob nb = true →
        (rates_changed old_rates new_rates = Except.ok false ↔
          ∀ kv ∈ nb, ∀ o, alookup kv.1 ob = some o →
            o.rate = kv.2.rate ∧ o.apr = kv.2.apr) ∧
        (rates_changed old_rates new_rates = Except.ok true ↔
          ∃ kv ∈ nb, ∃ o, alookup kv.1 ob = some o ∧
            (o.rate ≠ kv.2.rate ∨ o.apr ≠ kv.2.apr))) := by
  obtain ⟨ob, hob, _, _, _⟩ := best_by_product_fold old_rates h1
  obtain ⟨nb, hnb, _, _, _⟩ := best_by_product_fold new_rates h2
  refine ⟨ob, nb, hob, hnb, ?_, ?_⟩
  · intro hks
    rw [rates_changed, if_neg h0, hob, hnb]
    show (if sameKeySet ob nb = true then changedLoop ob nb
      else Except.ok true) = Except.ok true
    rw [hks]
    simp
  · intro hks
    have heq : rates_changed old_rates new_rates = changedLoop ob nb := by
      rw [rates_changed, if_neg h0, hob, hnb]
      show (if sameKeySet ob nb = true then changedLoop ob nb
        else Except.ok true) = changedLoop ob nb
      rw [if_pos hks]
    rw [heq]
    exact changedLoop_iff ob nb
      (fun kv hkv => sameKeySet_lookup ob nb hks kv hkv)

/-- C2 witness: the detector's characterisation at a concrete pair of
singleton rate lists differing only in the best rate. -/
theorem c2_rates_changed_spec_witness :
    [sample_option] ≠ ([] : List RateOption) ∧
    noNullPoints [sample_option] ∧ noNullPoints [sample_option_changed] ∧
    (∃ ob nb, best_by_product [sample_option] = Except.ok ob ∧
      best_by_product [sample_option_changed] = Except.ok nb ∧
      (sameKeySet ob nb = false →
        rates_changed [sample_option] [sample_option_changed] = Except.ok true) ∧
      (sameKeySet ob nb = true →
        (rates_changed [sample_option] [sample_option_changed] = Except.ok false ↔
          ∀ kv ∈ nb, ∀ o, alookup kv.1 ob = some o →
            o.rate = kv.2.rate ∧ o.apr = kv.2.apr) ∧
        (rates_changed [sample_option] [sample_option_changed] = Except.ok true ↔
          ∃ kv ∈ nb, ∃ o, alookup kv.1 ob = some o ∧
            (o.rate ≠ kv.2.rate ∨ o.apr ≠ kv.2.apr)))) :=
  ⟨by decide, fun r hr => by fin_cases hr; decide,
   fun r hr => by fin_cases hr; decide,
   c2_rates_changed_spec [sample_option] [sample_option_changed] (by decide)
     (fun r hr => by fin_cases hr; decide)
     (fun r hr => by fin_cases hr; decide)⟩

/-- C6: `rates_changed` is unconditionally true on an empty old list, and
reflexively false on any non-empty list (without explicit-`null` points)
compared with itself. -/
theorem c6_changed_empty_and_refl :
    (∀ new_rates, rates_changed [] new_rates = Except.ok true) ∧
    (∀ X, X ≠ [] → noNullPoints X → rates_changed X X = Except.ok false) := by
  constructor
  · intro new_rates
    rfl
  · intro X hX hnn
    obtain ⟨ob, hob, hnd, _, _⟩ := best_by_product_fold X hnn
    have hlk : ∀ kv ∈ ob, (alookup kv.1 ob).isSome := by
      intro kv hkv
      rw [alookup_of_mem_nodup kv.1 kv.2 ob hnd hkv]
      rfl
    have hall : ∀ kv ∈ ob, ∀ o, alookup kv.1 ob = some o →
        o.rate = kv.2.rate ∧ o.apr = kv.2.apr := by
      intro kv hkv o ho
      have h2 : alookup kv.1 ob = some kv.2 :=
        alookup_of_mem_nodup kv.1 kv.2 ob hnd hkv
      rw [h2] at ho
      rw [← Option.some.inj ho]
      exact ⟨rfl, rfl⟩
    have hloop : changedLoop ob ob = Except.ok false :=
      ((changedLoop_iff ob ob hlk).1).mpr hall
    rw [rates_changed, if_neg hX, hob]
    show (if sameKeySet ob ob = true then changedLoop ob ob
      else Except.ok true) = Except.ok false
    rw [if_pos (sameKeySet_refl ob)]
    exact hloop

/-- C6 witness: both parts at concrete inputs — an empty old list against a
singleton, and a singleton against itself. -/
theorem c6_changed_empty_and_refl_witness :
    rates_changed [] [sample_option] = Except.ok true ∧
    ([sample_option] ≠ ([] : List RateOption) ∧
      rates_changed [sample_option] [sample_option] = Except.ok false) :=
  ⟨c6_changed_empty_and_refl.1 [sample_option],
   by decide,
   c6_changed_empty_and_refl.2 [sample_option] (by decide)
     (fun r hr => by fin_cases hr; decide)⟩

/-- C7, counterexample: the claim says every numeric field missing from the
API entry maps to an explicit "missing" value, never zero.  On a tracked
group holding one entry with every key absent, the produced option's
`points` field is the number 0 (from `prod.get("discounts", 0)`), not a
missing value — while the other four fields do map to the missing value. -/
theorem c7_points_zero_counterexample :
    fetch_rates [empty_product_type] =
      [⟨"30 Yr Fixed", none, none, none, JNum.num 0, none⟩] ∧
    empty_api_product.discounts = JNum.absent ∧
    (toRateOption "30 Yr Fixed" empty_api_product).points = JNum.num 0 := by
  refine ⟨by decide, rfl, rfl⟩

/-- C7 (amended): every option produced by `fetch_rates` for a retained
group's entry maps a missing (or `null`) `rate`, `apr`, `monthlyPayments`
or `price` to the explicit missing value and a stated number to itself, but
maps a missing `discounts` key to the number 0 (an explicit `null` discounts
value is kept as `null`). -/
theorem c7_fetch_rates_field_mapping (productTypes : List ProductType)
    (pt : ProductType) (prod : ApiProduct) (hpt : pt ∈ productTypes)
    (htr : trackedMatch (pyStrip pt.name) = true) (hp : prod ∈ pt.products) :
    toRateOption (pyStrip pt.name) prod ∈ fetch_rates productTypes ∧
    ((prod.rate = JNum.absent ∨ prod.rate = JNum.null) →
      (toRateOption (pyStrip pt.name) prod).rate = none) ∧
    (∀ q, prod.rate = JNum.num q →
      (toRateOption (pyStrip pt.name) prod).rate = some q) ∧
    ((prod.apr = JNum.absent ∨ prod.apr = JNum.null) →
      (toRateOption (pyStrip pt.name) prod).apr = none) ∧
    ((prod.monthlyPayments = JNum.absent ∨ prod.monthlyPayments = JNum.null) →
      (toRateOption (pyStrip pt.name) prod).monthly_payment = none) ∧
    ((prod.price = JNum.absent ∨ prod.price = JNum.null) →
      (toRateOption (pyStrip pt.name) prod).price = none) ∧
    (prod.discounts = JNum.absent →
      (toRateOption (pyStrip pt.name) prod).points = JNum.num 0) ∧
    (prod.discounts = JNum.null →
      (toRateOption (pyStrip pt.name) prod).points = JNum.null) := by
  refine ⟨?_, ?_, ?_, ?_, ?_, ?_, ?_, ?_⟩
  · rw [fetch_rates, List.mem_flatMap]
    refine ⟨pt, ?_, List.mem_map_of_mem _ hp⟩
    rw [List.mem_filter]
    exact ⟨hpt, htr⟩
  · intro h
    rcases h with h | h <;> simp [toRateOption, pyGet, h]
  · intro q h
    simp [toRateOption, pyGet, h]
  · intro h
    rcases h with h | h <;> simp [toRateOption, pyGet, h]
  · intro h
    rcases h with h | h <;> simp [toRateOption, pyGet, h]
  · intro h
    rcases h with h | h <;> simp [toRateOption, pyGet, h]
  · intro h
    simp [toRateOption, h]
  · intro h
    simp [toRateOption, h]

/-- C7 witness: the amended mapping applied to the concrete all-absent entry
inside a tracked group. -/
theorem c7_fetch_rates_field_mapping_witness :
    empty_product_type ∈ [empty_product_type] ∧
    trackedMatch (pyStrip empty_product_type.name) = true ∧
    empty_api_product ∈ empty_product_type.products ∧
    toRateOption (pyStrip empty_product_type.name) empty_api_product ∈
      fetch_rates [empty_product_type] :=
  ⟨List.mem_singleton.mpr rfl, by decide, by decide,
   (c7_fetch_rates_field_mapping [empty_product_type] empty_product_type
     empty_api_product (List.mem_singleton.mpr rfl) (by decide)
     (by decide)).1⟩

/-- C8: whenever the orchestration step succeeds, the persisted store is the
loaded history with exactly one new snapshot — the current fetch's rates
under the run timestamp — prepended at index 0: the persisted history's head
is the new snapshot, its length grows by one, and every previously loaded
entry is preserved unchanged at the next index. -/
theorem c8_mainStep_prepends (store : Store) (now : String)
    (rates : List RateOption) (st' : Store)
    (h : mainStep store now rates = Except.ok st') :
    st' = Store.snapshots (⟨some now, rates⟩ :: load_history store) ∧
    load_history st' = ⟨some now, rates⟩ :: load_history store ∧
    (load_history st').length = (load_history store).length + 1 ∧
    (load_history st').head? = some ⟨some now, rates⟩ ∧
    ∀ i, (load_history st')[i + 1]? = (load_history store)[i]? := by
  rw [mainStep] at h
  by_cases hr : rates = []
  · rw [if_pos hr] at h
    exact absurd h (by simp)
  · rw [if_neg hr] at h
    cases hc : rates_changed
        (match load_history store with | [] => [] | s :: _ => s.rates)
        rates with
    | error e =>
      rw [hc] at h
      exact absurd h (by simp)
    | ok b =>
      rw [hc] at h
      have h2 : save_history (⟨some now, rates⟩ :: load_history store) = st' :=
        Except.ok.inj h
      rw [← h2]
      refine ⟨rfl, rfl, rfl, rfl, fun i => ?_⟩
      exact List.getElem?_cons_succ

/-- C8 witness: the prepend-and-persist facts for a first run on an absent
store. -/
theorem c8_mainStep_prepends_witness :
    mainStep Store.absent "t" [sample_option] =
      Except.ok (Store.snapshots [⟨some "t", [sample_option]⟩]) ∧
    Store.snapshots [⟨some "t", [sample_option]⟩] =
      Store.snapshots (⟨some "t", [sample_option]⟩ :: load_history Store.absent) ∧
    load_history (Store.snapshots [⟨some "t", [sample_option]⟩]) =
      ⟨some "t", [sample_option]⟩ :: load_history Store.absent ∧
    (load_history (Store.snapshots [⟨some "t", [sample_option]⟩])).length =
      (load_history Store.absent).length + 1 :=
  ⟨rfl,
   (c8_mainStep_prepends Store.absent "t" [sample_option]
      (Store.snapshots [⟨some "t", [sample_option]⟩]) rfl).1,
   (c8_mainStep_prepends Store.absent "t" [sample_option]
      (Store.snapshots [⟨some "t", [sample_option]⟩]) rfl).2.1,
   (c8_mainStep_prepends Store.absent "t" [sample_option]
      (Store.snapshots [⟨some "t", [sample_option]⟩]) rfl).2.2.1⟩

/-- C9: the renderer's two tables treat missing values differently —
`diff_arrow` emits no marker whenever either side is missing, while the
summary classification coerces a missing side to 0 and shows a
full-magnitude directional marker: a best rate at least the epsilon that
appears after being missing is marked up, and one that becomes missing is
marked down. -/
theorem c9_missing_value_markers :
    (∀ o n : Option ℚ, o = none ∨ n = none →
      diff_arrow o n = ChangeMark.noChange) ∧
    (∀ q : ℚ, 5 / 10000 ≤ q →
      summary_change_mark none (some q) = ChangeMark.up ∧
      summary_change_mark (some q) none = ChangeMark.down) := by
  constructor
  · intro o n h
    rcases h with h | h
    · subst h
      cases n <;> rfl
    · subst h
      cases o <;> rfl
  · intro q hq
    have hq0 : q ≠ 0 := by
      intro h
      rw [h] at hq
      norm_num at hq
    have hgt : (0 : ℚ) < q := lt_of_lt_of_le (by norm_num) hq
    have hsome : pyOrZero (some q) = q := by
      show (if q = 0 then (0 : ℚ) else q) = q
      rw [if_neg hq0]
    constructor
    · rw [summary_change_mark_eq]
      rw [hsome, show pyOrZero none = 0 from rfl, sub_zero]
      rw [if_neg (by rw [abs_of_pos hgt]; exact not_lt.mpr hq)]
      rw [if_pos hgt]
    · rw [summary_change_mark_eq]
      rw [hsome, show pyOrZero none = 0 from rfl, zero_sub]
      rw [if_neg (by rw [abs_neg, abs_of_pos hgt]; exact not_lt.mpr hq)]
      rw [if_neg (not_lt.mpr (neg_nonpos.mpr (le_of_lt hgt)))]

/-- C9 witness: both renderer behaviours at the concrete rate 1. -/
theorem c9_missing_value_markers_witness :
    diff_arrow none (some 1) = ChangeMark.noChange ∧
    (5 : ℚ) / 10000 ≤ 1 ∧
    summary_change_mark none (some 1) = ChangeMark.up ∧
    summary_change_mark (some 1) none = ChangeMark.down :=
  ⟨c9_missing_value_markers.1 none (some 1) (Or.inl rfl),
   by norm_num,
   c9_missing_value_markers.2 1 (by norm_num)⟩

/-- C10: the points comparisons are total exactly under the precondition
that present points values are numeric — `best_by_product` always succeeds
on rate lists without explicit-`null` points and the `(product, points)`
sort-key comparison always succeeds on options without explicit-`null`
points, while on a `null` points value (which the fetch preserves from
`"discounts": null`, defaulting to 0 only for an absent key) the comparison
against the numeric sentinel raises `TypeError` instead of producing a
result. -/
theorem c10_points_comparison_totality :
    (∀ rates, noNullPoints rates →
      ∃ l, best_by_product rates = Except.ok l) ∧
    (∀ a b : RateOption, a.points ≠ JNum.null → b.points ≠ JNum.null →
      ∃ v, sortKeyLt a b = Except.ok v) ∧
    best_by_product [null_points_option, zero_points_option] =
      Except.error "TypeError" ∧
    sortKeyLt null_points_option zero_points_option =
      Except.error "TypeError" ∧
    (∀ name r a m pr,
      (toRateOption name ⟨r, a, m, JNum.null, pr⟩).points = JNum.null) ∧
    (∀ name r a m pr,
      (toRateOption name ⟨r, a, m, JNum.absent, pr⟩).points = JNum.num 0) := by
  refine ⟨?_, ?_, by decide, ?_, fun name r a m pr => rfl,
    fun name r a m pr => rfl⟩
  · intro rates h
    obtain ⟨l, hl, _, _, _⟩ := best_by_product_fold rates h
    exact ⟨l, hl⟩
  · intro a b ha hb
    obtain ⟨x, hx⟩ : ∃ x, pyGetD 0 a.points = some x := by
      cases hp : a.points with
      | absent => exact ⟨0, rfl⟩
      | null => exact absurd hp ha
      | num q => exact ⟨q, rfl⟩
    obtain ⟨y, hy⟩ : ∃ y, pyGetD 0 b.points = some y := by
      cases hp : b.points with
      | absent => exact ⟨0, rfl⟩
      | null => exact absurd hp hb
      | num q => exact ⟨q, rfl⟩
    by_cases h1 : a.product < b.product
    · exact ⟨true, by rw [sortKeyLt, if_pos h1]⟩
    · by_cases h2 : b.product < a.product
      · exact ⟨false, by rw [sortKeyLt, if_neg h1, if_pos h2]⟩
      · refine ⟨decide (x < y), ?_⟩
        rw [sortKeyLt, if_neg h1, if_neg h2, hx, hy]
        rfl
  · have hirr : ¬ ("30 Yr Fixed" < "30 Yr Fixed") := lt_irrefl _
    simp only [sortKeyLt, null_points_option, zero_points_option]
    rw [if_neg hirr, if_neg hirr]
    rfl

/-- C10 witness: totality applied at concrete all-numeric inputs. -/
theorem c10_points_comparison_totality_witness :
    noNullPoints [zero_points_option] ∧
    (∃ l, best_by_product [zero_points_option] = Except.ok l) ∧
    zero_points_option.points ≠ JNum.null ∧
    sample_option.points ≠ JNum.null ∧
    (∃ v, sortKeyLt zero_points_option sample_option = Except.ok v) :=
  ⟨fun r hr => by fin_cases hr; decide,
   c10_points_comparison_totality.1 [zero_points_option]
     (fun r hr => by fin_cases hr; decide),
   by decide, by decide,
   c10_points_comparison_totality.2.1 zero_points_option sample_option
     (by decide) (by decide)⟩

end RateMonitor
